import Mathlib

/-!
Verification development for the Eisen context-tracking core
(`core/src/tracker.rs`, `core/src/types.rs`, `core/src/extract.rs`,
`core/src/proxy.rs`, `core/src/orchestrator.rs`).

The Rust code is shallowly embedded:
* `f32` heat / threshold / decay values are modelled as exact rationals
  (`ℚ`); every comparison the claims exercise is far from any rounding
  boundary of `f32`, and constants such as `1.0`, `0.01`, `0.5`, `0.95`
  are exactly representable.
* `u32` / `u64` counters are modelled as `ℕ` (`saturating_sub` is the
  truncated `ℕ` subtraction).
* `HashMap<String, FileNode>` is modelled as an association list whose
  update-in-place / append-on-insert operations preserve the same
  lookup semantics; `HashSet<String>` (the dirty set, pending ids) is a
  duplicate-free list built by insert-if-absent.
* Wall-clock time (`now_ms()`) is passed in as an explicit `now`
  parameter.
-/

namespace Eisen

/-- `Action` — the type of file access observed from ACP messages
(`types.rs`). -/
inductive Action where
  | user_provided
  | user_referenced
  | read
  | write
  | search
  | blocked
deriving DecidableEq, Repr

/-- `FileNode` — a tracked file in the graph (`types.rs`). -/
structure FileNode where
  path : String
  heat : ℚ
  in_context : Bool
  last_action : Action
  turn_accessed : ℕ
  timestamp_ms : ℕ
deriving DecidableEq, Repr

/-- `NodeUpdate` — an update to a single file within a delta (`types.rs`). -/
structure NodeUpdate where
  path : String
  heat : ℚ
  in_context : Bool
  last_action : Action
  turn_accessed : ℕ
  timestamp_ms : ℕ
deriving DecidableEq, Repr

/-- `FileNode::to_update` (`types.rs`). -/
def FileNode.to_update (n : FileNode) : NodeUpdate :=
  { path := n.path
    heat := n.heat
    in_context := n.in_context
    last_action := n.last_action
    turn_accessed := n.turn_accessed
    timestamp_ms := n.timestamp_ms }

/-- `Cost` (`types.rs`); `f64` amount modelled as `ℚ`. -/
structure Cost where
  amount : ℚ
  currency : String
deriving DecidableEq, Repr

/-- `UsageMessage` (`types.rs`); `msg_type` is always "usage". -/
structure UsageMessage where
  msg_type : String
  agent_id : String
  session_id : String
  used : ℕ
  size : ℕ
  cost : Option Cost
deriving DecidableEq, Repr

/-- `UsageMessage::new` (`types.rs`). -/
def UsageMessage.new (agent_id session_id : String) (used size : ℕ)
    (cost : Option Cost) : UsageMessage :=
  { msg_type := "usage", agent_id := agent_id, session_id := session_id
    used := used, size := size, cost := cost }

/-- The file table: `HashMap<String, FileNode>` modelled as an
association list. -/
abbrev FileTable := List (String × FileNode)

/-- `Snapshot` (`types.rs`); `msg_type` is always "snapshot". -/
structure Snapshot where
  msg_type : String
  agent_id : String
  session_id : String
  seq : ℕ
  nodes : FileTable
deriving DecidableEq, Repr

/-- `Snapshot::new` (`types.rs`). -/
def Snapshot.new (agent_id session_id : String) (seq : ℕ)
    (nodes : FileTable) : Snapshot :=
  { msg_type := "snapshot", agent_id := agent_id, session_id := session_id
    seq := seq, nodes := nodes }

/-- `Delta` (`types.rs`); `msg_type` is always "delta". -/
structure Delta where
  msg_type : String
  agent_id : String
  session_id : String
  seq : ℕ
  updates : List NodeUpdate
  removed : List String
deriving DecidableEq, Repr

/-- `Delta::new` (`types.rs`). -/
def Delta.new (agent_id session_id : String) (seq : ℕ)
    (updates : List NodeUpdate) (removed : List String) : Delta :=
  { msg_type := "delta", agent_id := agent_id, session_id := session_id
    seq := seq, updates := updates, removed := removed }

/-- `BlockedAccess` (`types.rs`); `msg_type` is always "blocked". -/
structure BlockedAccess where
  msg_type : String
  agent_id : String
  session_id : String
  path : String
  action : String
  timestamp_ms : ℕ
deriving DecidableEq, Repr

/-- `BlockedAccess::new` (`types.rs`), with the wall clock passed
explicitly. -/
def BlockedAccess.new (agent_id session_id path action : String)
    (now : ℕ) : BlockedAccess :=
  { msg_type := "blocked", agent_id := agent_id, session_id := session_id
    path := path, action := action, timestamp_ms := now }

/-- `TrackerConfig` (`types.rs`). -/
structure TrackerConfig where
  context_turns : ℕ
  compaction_threshold : ℚ
  decay_rate : ℚ
deriving DecidableEq, Repr

/-- `TrackerConfig::default` (`types.rs`): 3 turns, 0.5 threshold,
0.95 decay. -/
def TrackerConfig.default : TrackerConfig :=
  { context_turns := 3, compaction_threshold := 1/2, decay_rate := 19/20 }

-- -------------------------------------------------------------------
-- File-table (HashMap) operations
-- -------------------------------------------------------------------

/-- `HashMap::get` on the association list: first entry with the key. -/
def FileTable.lookup (m : FileTable) (k : String) : Option FileNode :=
  (m.find? (fun kv => kv.1 = k)).map (·.2)

/-- `HashMap::insert` semantics: replace the value in place if the key
is present, append otherwise. -/
def FileTable.insertNode (m : FileTable) (k : String) (v : FileNode) :
    FileTable :=
  if m.any (fun kv => kv.1 = k) then
    m.map (fun kv => if kv.1 = k then (k, v) else kv)
  else
    m ++ [(k, v)]

/-- `HashSet::insert` on the duplicate-free list model. -/
def insertOnce (l : List String) (p : String) : List String :=
  if p ∈ l then l else l ++ [p]

-- -------------------------------------------------------------------
-- ContextTracker (`tracker.rs`)
-- -------------------------------------------------------------------

/-- `ContextTracker` — the stateful core (`tracker.rs`). -/
structure ContextTracker where
  agent_id : String
  session_id : String
  files : FileTable
  seq : ℕ
  current_turn : ℕ
  last_used_tokens : ℕ
  context_size : ℕ
  config : TrackerConfig
  changed_paths : List String
  pending_usage : List UsageMessage
  pending_terminal_output_ids : List ℕ
deriving DecidableEq, Repr

namespace ContextTracker

/-- `ContextTracker::new` (`tracker.rs`). -/
def new (config : TrackerConfig) : ContextTracker :=
  { agent_id := "", session_id := "", files := [], seq := 0
    current_turn := 0, last_used_tokens := 0, context_size := 0
    config := config, changed_paths := [], pending_usage := []
    pending_terminal_output_ids := [] }

/-- `ContextTracker::add_pending_terminal_output` (`tracker.rs`). -/
def add_pending_terminal_output (tr : ContextTracker) (id : ℕ) :
    ContextTracker :=
  { tr with pending_terminal_output_ids :=
      if id ∈ tr.pending_terminal_output_ids then
        tr.pending_terminal_output_ids
      else tr.pending_terminal_output_ids ++ [id] }

/-- `ContextTracker::file_access` (`tracker.rs`): create the node if
absent, then set heat to 1.0, mark in-context, overwrite the action,
the turn and the timestamp, and dirty the path. `now` is `now_ms()`. -/
def file_access (tr : ContextTracker) (path : String) (action : Action)
    (now : ℕ) : ContextTracker :=
  let node0 : FileNode :=
    match tr.files.lookup path with
    | some n => n
    | none =>
      { path := path, heat := 0, in_context := false
        last_action := action, turn_accessed := 0, timestamp_ms := 0 }
  let node : FileNode :=
    { node0 with heat := 1, in_context := true, last_action := action
                 turn_accessed := tr.current_turn, timestamp_ms := now }
  { tr with files := tr.files.insertNode path node
            changed_paths := insertOnce tr.changed_paths path }

/-- `ContextTracker::handle_compaction` (`tracker.rs`): all in-context
files exit context and are dirtied. -/
def handle_compaction (tr : ContextTracker) : ContextTracker :=
  { tr with
    files := tr.files.map (fun kv =>
      (kv.1, if kv.2.in_context = true then
               { kv.2 with in_context := false }
             else kv.2))
    changed_paths :=
      ((tr.files.filter (fun kv => kv.2.in_context)).map (·.1)).foldl
        insertOnce tr.changed_paths }

/-- `ContextTracker::usage_update` (`tracker.rs`): compaction is
detected when the usage drop ratio `1 - used/previous` reaches the
threshold; in every case the new counters are stored and one
`UsageMessage` is queued. -/
def usage_update (tr : ContextTracker) (used size : ℕ) : ContextTracker :=
  let previous := tr.last_used_tokens
  let tr1 := { tr with last_used_tokens := used, context_size := size }
  let tr2 :=
    if 0 < previous ∧
        tr.config.compaction_threshold ≤ 1 - (used : ℚ) / (previous : ℚ)
    then handle_compaction tr1 else tr1
  { tr2 with pending_usage := tr2.pending_usage ++
      [UsageMessage.new tr.agent_id tr.session_id used size none] }

/-- `ContextTracker::end_turn` (`tracker.rs`): bump the turn counter and
flip out of context every node whose access is older than
`context_turns` (saturating subtraction). -/
def end_turn (tr : ContextTracker) : ContextTracker :=
  { tr with
    current_turn := tr.current_turn + 1
    files := tr.files.map (fun kv =>
      (kv.1,
       if kv.2.in_context = true ∧
           tr.config.context_turns <
             tr.current_turn + 1 - kv.2.turn_accessed
       then { kv.2 with in_context := false }
       else kv.2))
    changed_paths :=
      ((tr.files.filter (fun kv =>
          decide (kv.2.in_context = true ∧
            tr.config.context_turns <
              tr.current_turn + 1 - kv.2.turn_accessed))).map (·.1)).foldl
        insertOnce tr.changed_paths }

/-- The per-node decay step of `ContextTracker::tick` (`tracker.rs`
lines 186-195): non-context nodes with heat above 0.01 are multiplied
by `decay_rate` and clamped to 0 when the result is at most 0.01. -/
def decayNode (rate : ℚ) (n : FileNode) : FileNode :=
  if n.in_context = false ∧ 1/100 < n.heat then
    { n with heat := if n.heat * rate ≤ 1/100 then 0 else n.heat * rate }
  else n

/-- The decay pass of `ContextTracker::tick` (`tracker.rs` lines
186-195) applied to the whole table. -/
def tickDecayedFiles (tr : ContextTracker) : FileTable :=
  tr.files.map (fun kv => (kv.1, decayNode tr.config.decay_rate kv.2))

/-- The dirty set `tick` drains: the paths already dirty plus every
path whose node the decay pass touched. -/
def tickDirty (tr : ContextTracker) : List String :=
  ((tr.files.filter (fun kv =>
      kv.2.in_context = false ∧ 1/100 < kv.2.heat)).map (·.1)).foldl
    insertOnce tr.changed_paths

/-- The `updates` list `tick` builds (`tracker.rs` lines 203-216):
dirty nodes that are still warm or in context. -/
def tickUpdates (tr : ContextTracker) : List NodeUpdate :=
  (tickDirty tr).filterMap (fun p =>
    match (tickDecayedFiles tr).lookup p with
    | some n =>
      if 0 < n.heat ∨ n.in_context then some n.to_update else none
    | none => none)

/-- The `removed` list `tick` builds: dirty nodes whose heat hit zero
while out of context. -/
def tickRemoved (tr : ContextTracker) : List String :=
  (tickDirty tr).filterMap (fun p =>
    match (tickDecayedFiles tr).lookup p with
    | some n =>
      if 0 < n.heat ∨ n.in_context then none else some p
    | none => none)

/-- `ContextTracker::tick` (`tracker.rs`): decay, drain the dirty set,
split it into updates and removals, prune removed files, and emit a
delta with a freshly incremented sequence number unless nothing
changed. -/
def tick (tr : ContextTracker) : ContextTracker × Option Delta :=
  let files1 := tickDecayedFiles tr
  let changed1 := tickDirty tr
  if changed1.isEmpty then
    ({ tr with files := files1, changed_paths := changed1 }, none)
  else
    let seq1 := tr.seq + 1
    let updates := tickUpdates tr
    let removed := tickRemoved tr
    let files2 := files1.filter (fun kv => kv.1 ∉ removed)
    if updates.isEmpty ∧ removed.isEmpty then
      ({ tr with files := files2, changed_paths := [], seq := seq1 },
       none)
    else
      ({ tr with files := files2, changed_paths := [], seq := seq1 },
       some (Delta.new tr.agent_id tr.session_id seq1 updates removed))

/-- `ContextTracker::snapshot` (`tracker.rs`): only warm or in-context
nodes are included. -/
def snapshot (tr : ContextTracker) : Snapshot :=
  Snapshot.new tr.agent_id tr.session_id tr.seq
    (tr.files.filter (fun kv => 0 < kv.2.heat ∨ kv.2.in_context))

end ContextTracker

-- -------------------------------------------------------------------
-- Zone policy (`types.rs`): glob matcher and ZoneConfig::is_allowed
-- -------------------------------------------------------------------

/-- `ZoneConfig` (`types.rs`): allow and deny glob patterns. -/
structure ZoneConfig where
  allowed : List String
  denied : List String
deriving DecidableEq, Repr

/-- `ZoneConfig::new` (`types.rs`): allowed patterns only. -/
def ZoneConfig.new (allowed : List String) : ZoneConfig :=
  { allowed := allowed, denied := [] }

/-- Rust `str::split(c)` on the character-list view of a string:
every separator produces a boundary, and the empty string yields one
empty part. -/
def splitChar (c : Char) : List Char → List (List Char)
  | [] => [[]]
  | x :: xs =>
    if x = c then [] :: splitChar c xs
    else
      match splitChar c xs with
      | [] => [[x]]
      | y :: ys => (x :: y) :: ys

/-- Rust `str::find(sub)` on character lists: index of the first
occurrence of `needle`. -/
def findSub (needle : List Char) : List Char → Option ℕ
  | [] => if needle.isEmpty then some 0 else none
  | x :: xs =>
    if needle.isPrefixOf (x :: xs) then some 0
    else (findSub needle xs).map (· + 1)

/-- The indexed loop of `segment_match` (`types.rs` lines 256-269):
walk the `'*'`-separated parts, requiring the first (index-0) part to
match at the start, and advance `pos` past each found part. Returns
the final `pos`, or `none` on a failed match. -/
def matchParts (seg : List Char) : ℕ → ℕ → List (List Char) → Option ℕ
  | _, pos, [] => some pos
  | i, pos, part :: rest =>
    if part.isEmpty then matchParts seg (i + 1) pos rest
    else
      match findSub part (seg.drop pos) with
      | none => none
      | some found =>
        if i = 0 ∧ found ≠ 0 then none
        else matchParts seg (i + 1) (pos + found + part.length) rest

/-- `segment_match` (`types.rs`): match a single path segment against a
pattern segment, `'*'` matching any characters within the segment. -/
def segment_match (pattern segment : List Char) : Bool :=
  if pattern = ['*'] then true
  else if ¬ pattern.contains '*' then pattern = segment
  else
    match matchParts segment 0 0 (splitChar '*' pattern) with
    | none => false
    | some pos =>
      if pattern.getLast? = some '*' then true
      else pos = segment.length

/-- `glob_match_impl` (`types.rs`): `**` matches zero or more path
segments, other pattern segments match one path segment each. -/
def glob_match_impl : List (List Char) → List (List Char) → Bool
  | [], pathParts => pathParts.isEmpty
  | pat :: pats, pathParts =>
    if pat = ['*', '*'] then
      (List.range (pathParts.length + 1)).any (fun i =>
        glob_match_impl pats (pathParts.drop i))
    else
      match pathParts with
      | [] => false
      | p :: ps => segment_match pat p && glob_match_impl pats ps

/-- `glob_match` (`types.rs`): split pattern and path on `/` and match
segment lists. -/
def glob_match (pattern path : String) : Bool :=
  glob_match_impl (splitChar '/' pattern.toList) (splitChar '/' path.toList)

/-- `str::strip_prefix('/')` as used by `is_allowed`: drop one leading
slash if present (character-list view of the string). -/
def stripSlash (s : String) : String :=
  match s.toList with
  | '/' :: rest => String.mk rest
  | _ => s

/-- `ZoneConfig::is_allowed` (`types.rs`): deny patterns take priority,
then the path must match at least one allow pattern. Both path and
patterns are compared after stripping a leading `/`. -/
def ZoneConfig.is_allowed (z : ZoneConfig) (path : String) : Bool :=
  let normalized := stripSlash path
  if z.denied.any (fun pattern => glob_match (stripSlash pattern) normalized)
  then false
  else z.allowed.any (fun pattern =>
    glob_match (stripSlash pattern) normalized)

-- -------------------------------------------------------------------
-- JSON values (`serde_json::Value`), proxy zone enforcement
-- (`proxy.rs`) and the extractor (`extract.rs`)
-- -------------------------------------------------------------------

/-- `serde_json::Value`, as far as the proxy and extractor inspect it.
Objects are association lists; numbers are integers (the only numeric
fields the code reads are JSON-RPC ids via `as_u64`). -/
inductive Json where
  | null
  | bool (b : Bool)
  | num (n : ℤ)
  | str (s : String)
  | arr (elems : List Json)
  | obj (fields : List (String × Json))

/-- `Value::get(key)` on an object; `None` on any other variant. -/
def Json.get : Json → String → Option Json
  | .obj fields, key => (fields.find? (fun kv => kv.1 = key)).map (·.2)
  | _, _ => none

/-- `Value::as_str`. -/
def Json.asStr : Json → Option String
  | .str s => some s
  | _ => none

/-- `Value::as_u64`: non-negative integers only. -/
def Json.asU64 : Json → Option ℕ
  | .num n => if 0 ≤ n then some n.toNat else none
  | _ => none

/-- Result of a zone violation check (`proxy.rs`). -/
structure ZoneViolation where
  path : String
  action : String
deriving DecidableEq, Repr

/-- `check_zone_violation` (`proxy.rs`): an `fs/read_text_file` or
`fs/write_text_file` request whose `params.path` is outside the zone
yields a violation; everything else passes. -/
def check_zone_violation (v : Json) (zone : ZoneConfig) :
    Option ZoneViolation :=
  match (v.get "method").bind Json.asStr with
  | none => none
  | some method =>
    let pathOf : Option String :=
      ((v.get "params").bind (fun p => p.get "path")).bind Json.asStr
    let classified : Option (String × String) :=
      if method = "fs/read_text_file" then
        pathOf.map (fun path => ("read", path))
      else if method = "fs/write_text_file" then
        pathOf.map (fun path => ("write", path))
      else none
    match classified with
    | none => none
    | some (action, path) =>
      if zone.is_allowed path then none
      else some { path := path, action := action }

/-- The synthetic JSON-RPC error response built by `downstream_task`
(`proxy.rs`): original id, code −32001, message naming the path. -/
def zoneErrorResponse (id : Json) (path : String) : Json :=
  .obj [("jsonrpc", .str "2.0"),
        ("id", id),
        ("error", .obj
          [("code", .num (-32001)),
           ("message", .str ("Outside agent zone: " ++ path ++
             ". Request cross-region info through the orchestrator."))])]

/-- The observable effect of one iteration of `downstream_task`
(`proxy.rs`) on a parsed line: what is written to the editor's output,
what is broadcast, and the tracker afterwards. -/
structure DownstreamEffect where
  editorOut : List Json
  blockedOut : List BlockedAccess
  tracker : ContextTracker

/-- One iteration of the `downstream_task` loop (`proxy.rs`) on a line
that parsed to `v`, with the downstream extractor passed in as the
function `ext` (the extractor deserialises external ACP schema types;
every theorem below pins down the blocked branch, which never calls
it, or leaves it abstract). `now` is the wall clock used for both
`now_ms()` calls. -/
def downstream_step (ext : Json → ContextTracker → ContextTracker)
    (zone_config : Option ZoneConfig) (v : Json) (tr : ContextTracker)
    (now : ℕ) : DownstreamEffect :=
  let blocked : Option ZoneViolation :=
    match zone_config with
    | some zone => check_zone_violation v zone
    | none => none
  match blocked with
  | some viol =>
    let tr1 := tr.file_access viol.path .blocked now
    { editorOut :=
        match v.get "id" with
        | some id => [zoneErrorResponse id viol.path]
        | none => []
      blockedOut := [BlockedAccess.new tr.agent_id tr.session_id
        viol.path viol.action now]
      tracker := tr1 }
  | none =>
    { editorOut := [v], blockedOut := [], tracker := ext v tr }

/-- Rust `str::trim` on the character-list view: drop (ASCII)
whitespace from both ends. -/
def charTrim (l : List Char) : List Char :=
  ((l.dropWhile Char.isWhitespace).reverse.dropWhile
    Char.isWhitespace).reverse

/-- `extract_path_from_line` (`extract.rs`): a line starting with `/`
yields its prefix before the first `:` (trimmed), when longer than one
character (Rust byte length and character length agree on the `> 1`
test because the line starts with the one-byte character `/`). -/
def extract_path_from_line (line : String) : Option String :=
  match line.toList with
  | [] => none
  | c :: rest =>
    if c = '/' then
      let path := charTrim ((c :: rest).takeWhile (fun x => x ≠ ':'))
      if 1 < path.length then some (String.mk path) else none
    else none

/-- The loop body of `extract_paths_from_terminal_output`
(`extract.rs`): trim the line, skip it when empty, otherwise record
any extracted path with action `search`. -/
def scanStep (now : ℕ) (t : ContextTracker) (rawLine : List Char) :
    ContextTracker :=
  let line := charTrim rawLine
  if line.isEmpty then t
  else
    match extract_path_from_line (String.mk line) with
    | some path => t.file_access path .search now
    | none => t

/-- The path the terminal-output loop extracts from one raw line, if
any. -/
def scanLine (rawLine : List Char) : Option String :=
  let line := charTrim rawLine
  if line.isEmpty then none
  else extract_path_from_line (String.mk line)

/-- The list of paths the terminal-output loop records, in order. -/
def scanRecorded (lines : List (List Char)) : List String :=
  lines.filterMap scanLine

/-- `extract_paths_from_terminal_output` (`extract.rs`): scan every
line of the output (Rust `str::lines` modelled as splitting on `\n`;
the per-line `trim` subsumes the `\r` stripping and the skipped final
empty line), recording each extracted path with action `search`. -/
def extract_paths_from_terminal_output (output : String)
    (tr : ContextTracker) (now : ℕ) : ContextTracker :=
  (splitChar '\n' output.toList).foldl (scanStep now) tr

/-- The JSON-RPC-response branch of `extract_upstream` (`extract.rs`
lines 49-58): a response (no `method` field) whose id is in the
pending terminal-output set has that id removed and its
`result.output` string scanned for paths. Upstream lines carrying a
`method` field take the `session/prompt` branch instead, which
deserialises external ACP schema types and never touches the
terminal-output state; no theorem below concerns them. -/
def extract_upstream_response (v : Json) (tr : ContextTracker)
    (now : ℕ) : ContextTracker :=
  match (v.get "id").bind Json.asU64 with
  | none => tr
  | some id =>
    if id ∈ tr.pending_terminal_output_ids then
      let tr1 := { tr with pending_terminal_output_ids :=
        tr.pending_terminal_output_ids.filter (fun x => x ≠ id) }
      match ((v.get "result").bind (fun r => r.get "output")).bind
          Json.asStr with
      | some output => extract_paths_from_terminal_output output tr1 now
      | none => tr1
    else tr

/-- Restatement of the spec's terminal-output rule, for the refinement
theorem on C8: "every line of `result.output` that begins with `/` is
parsed as a possible path (strip at the first `:` if present)". The
code additionally requires the extracted path to be longer than a bare
`/`. -/
def terminal_paths_spec (output : String) : List String :=
  (splitChar '\n' output.toList).filterMap (fun rawLine =>
    match charTrim rawLine with
    | [] => none
    | c :: rest =>
      if c = '/' then
        let path := charTrim ((c :: rest).takeWhile (fun x => x ≠ ':'))
        if 1 < path.length then some (String.mk path) else none
      else none)

-- -------------------------------------------------------------------
-- Orchestrator aggregation (`orchestrator.rs`)
-- -------------------------------------------------------------------

/-- `action_priority` (`orchestrator.rs`): `write` > `search` > any
other action. -/
def action_priority : Action → ℕ
  | .write => 3
  | .search => 2
  | _ => 1

/-- The merged value computed by `merge_node` (`orchestrator.rs`) when
the aggregate already holds an entry for the node's path: maximum
heat, OR of `in_context`, maximum turn, and last-writer-wins on
`(timestamp_ms, action_priority)` for the action and timestamp. -/
def mergedNode (existing node : FileNode) : FileNode :=
  let merged :=
    { existing with
      heat := max existing.heat node.heat
      in_context := existing.in_context || node.in_context
      turn_accessed := max existing.turn_accessed node.turn_accessed }
  if existing.timestamp_ms < node.timestamp_ms ∨
      (node.timestamp_ms = existing.timestamp_ms ∧
       action_priority existing.last_action <
         action_priority node.last_action)
  then { merged with last_action := node.last_action
                     timestamp_ms := node.timestamp_ms }
  else merged

/-- `merge_node` (`orchestrator.rs`): merge one provider node into the
aggregate table. -/
def merge_node (target : FileTable) (node : FileNode) : FileTable :=
  match target.lookup node.path with
  | none => target.insertNode node.path node
  | some existing => target.insertNode node.path (mergedNode existing node)

-- -------------------------------------------------------------------
-- Reachable tracker states (claim C9)
-- -------------------------------------------------------------------

/-- States reachable from a fresh tracker by any sequence of
`file_access`, `end_turn`, `usage_update` and `tick` calls
(`snapshot` takes `&self` and never mutates the state, so it is not a
transition). -/
inductive Reachable (cfg : TrackerConfig) : ContextTracker → Prop where
  | base : Reachable cfg (ContextTracker.new cfg)
  | access (tr : ContextTracker) (p : String) (a : Action) (now : ℕ) :
      Reachable cfg tr → Reachable cfg (tr.file_access p a now)
  | turn (tr : ContextTracker) :
      Reachable cfg tr → Reachable cfg tr.end_turn
  | usage (tr : ContextTracker) (used size : ℕ) :
      Reachable cfg tr → Reachable cfg (tr.usage_update used size)
  | step_tick (tr : ContextTracker) :
      Reachable cfg tr → Reachable cfg tr.tick.1

-- -------------------------------------------------------------------
-- Helper lemmas: file-table and dirty-set operations
-- -------------------------------------------------------------------

theorem FileTable.lookup_nil (k : String) :
    FileTable.lookup [] k = none := rfl

theorem FileTable.lookup_cons (kv : String × FileNode) (m : FileTable)
    (k : String) :
    FileTable.lookup (kv :: m) k =
      if kv.1 = k then some kv.2 else FileTable.lookup m k := by
  by_cases h : kv.1 = k <;> simp [FileTable.lookup, List.find?, h]

theorem FileTable.lookup_replaceKey (m : FileTable) (k : String)
    (v : FileNode) (q : String) :
    FileTable.lookup (m.map (fun kv => if kv.1 = k then (k, v) else kv)) q =
      if k = q then (FileTable.lookup m k).map (fun _ => v)
      else FileTable.lookup m q := by
  induction m with
  | nil => by_cases h : k = q <;> simp [FileTable.lookup, h]
  | cons kv tl ih =>
    by_cases h1 : kv.1 = k
    · have hhead : (if kv.1 = k then (k, v) else kv) = (k, v) := by
        simp [h1]
      by_cases h2 : k = q <;>
        simp [List.map_cons, hhead, FileTable.lookup_cons, h1, h2, ih]
    · have hhead : (if kv.1 = k then (k, v) else kv) = kv := by
        simp [h1]
      rw [List.map_cons, hhead, FileTable.lookup_cons]
      by_cases h3 : kv.1 = q
      · have h2 : ¬ k = q := fun hkq => h1 (by rw [h3, hkq])
        simp [FileTable.lookup_cons, h3, h2]
      · by_cases h2 : k = q
        · subst h2; simp [FileTable.lookup_cons, h3, ih]
        · simp [FileTable.lookup_cons, h3, h2, ih]

theorem FileTable.any_key_iff (m : FileTable) (k : String) :
    (m.any (fun kv => kv.1 = k)) = true ↔
      ∃ n, FileTable.lookup m k = some n := by
  induction m with
  | nil => simp [FileTable.lookup]
  | cons kv tl ih =>
    by_cases h : kv.1 = k <;> simp [FileTable.lookup_cons, h, ih]

theorem FileTable.lookup_append (m₁ m₂ : FileTable) (q : String) :
    FileTable.lookup (m₁ ++ m₂) q =
      (FileTable.lookup m₁ q).or (FileTable.lookup m₂ q) := by
  induction m₁ with
  | nil => simp [FileTable.lookup]
  | cons kv tl ih =>
    by_cases h : kv.1 = q <;>
      simp [FileTable.lookup_cons, List.cons_append, h, ih]

theorem FileTable.lookup_insertNode (m : FileTable) (k : String)
    (v : FileNode) (q : String) :
    FileTable.lookup (m.insertNode k v) q =
      if k = q then some v else FileTable.lookup m q := by
  unfold FileTable.insertNode
  by_cases hmem : m.any (fun kv => kv.1 = k)
  · obtain ⟨n, hn⟩ := (FileTable.any_key_iff m k).mp hmem
    simp [hmem, FileTable.lookup_replaceKey, hn]
  · have hnone : FileTable.lookup m k = none := by
      rcases hcase : FileTable.lookup m k with _ | n
      · rfl
      · exact absurd ((FileTable.any_key_iff m k).mpr ⟨n, hcase⟩) hmem
    simp only [hmem, Bool.false_eq_true, if_false,
      FileTable.lookup_append]
    have hsingle : FileTable.lookup [(k, v)] q =
        if k = q then some v else none := by
      by_cases h : k = q <;> simp [FileTable.lookup_cons, h,
        FileTable.lookup_nil]
    rw [hsingle]
    by_cases h : k = q
    · subst h; rw [hnone]; simp
    · simp [h]

/-- Looking up in a value-mapped table. -/
theorem FileTable.lookup_mapValues (m : FileTable)
    (f : FileNode → FileNode) (q : String) :
    FileTable.lookup (m.map (fun kv => (kv.1, f kv.2))) q =
      (FileTable.lookup m q).map f := by
  induction m with
  | nil => rfl
  | cons kv tl ih =>
    by_cases h : kv.1 = q <;> simp [FileTable.lookup_cons, h, ih]

/-- Looking up in a key-filtered table. -/
theorem FileTable.lookup_filterKeys (m : FileTable) (keep : String → Bool)
    (q : String) :
    FileTable.lookup (m.filter (fun kv => keep kv.1)) q =
      if keep q then FileTable.lookup m q else none := by
  induction m with
  | nil => simp [FileTable.lookup]
  | cons kv tl ih =>
    by_cases h : kv.1 = q
    · subst h
      by_cases hk : keep kv.1 <;>
        simp [List.filter_cons, hk, FileTable.lookup_cons, ih]
    · by_cases hk : keep kv.1 <;>
        simp [List.filter_cons, hk, FileTable.lookup_cons, h, ih]

theorem mem_insertOnce (l : List String) (p q : String) :
    q ∈ insertOnce l p ↔ q ∈ l ∨ q = p := by
  unfold insertOnce
  by_cases h : p ∈ l
  · simp only [h, if_true]
    constructor
    · exact Or.inl
    · rintro (hq | rfl)
      · exact hq
      · exact h
  · simp [h, List.mem_append]

theorem mem_foldl_insertOnce (ps : List String) (l : List String)
    (q : String) :
    q ∈ ps.foldl insertOnce l ↔ q ∈ l ∨ q ∈ ps := by
  induction ps generalizing l with
  | nil => simp
  | cons p tl ih =>
    simp only [List.foldl_cons, ih, mem_insertOnce, List.mem_cons]
    tauto

-- -------------------------------------------------------------------
-- Helper lemmas: tracker operations
-- -------------------------------------------------------------------

/-- What `file_access` leaves in the table: the accessed path carries a
fresh node (whose `path` field is the old node's when one existed),
every other key is untouched. -/
theorem ContextTracker.file_access_files_lookup (tr : ContextTracker)
    (p : String) (a : Action) (now : ℕ) (q : String) :
    ((tr.file_access p a now).files).lookup q =
      if p = q then
        some { path := (match tr.files.lookup p with
                        | some n => n.path
                        | none => p)
               heat := 1, in_context := true, last_action := a
               turn_accessed := tr.current_turn, timestamp_ms := now }
      else tr.files.lookup q := by
  unfold ContextTracker.file_access
  simp only [FileTable.lookup_insertNode]
  rcases h : tr.files.lookup p with _ | n <;> simp [h]

theorem ContextTracker.file_access_changed (tr : ContextTracker)
    (p : String) (a : Action) (now : ℕ) :
    (tr.file_access p a now).changed_paths =
      insertOnce tr.changed_paths p := rfl

-- -------------------------------------------------------------------
-- Claim theorems
-- -------------------------------------------------------------------

/-- C2: for every tracker state, path and action, `file_access(path,
action)` creates the node if absent and afterwards the node has heat
exactly 1.0, `in_context = true`, `last_action` equal to the given
action, `turn_accessed` equal to the current turn counter,
`timestamp_ms` set to the current wall clock, and the path is in the
dirty set — regardless of any prior decay of that node. -/
theorem C2_file_access_resets_node (tr : ContextTracker) (p : String)
    (a : Action) (now : ℕ) :
    (∃ n : FileNode,
      ((tr.file_access p a now).files).lookup p = some n ∧
      n.heat = 1 ∧ n.in_context = true ∧ n.last_action = a ∧
      n.turn_accessed = tr.current_turn ∧ n.timestamp_ms = now) ∧
    p ∈ (tr.file_access p a now).changed_paths := by
  constructor
  · have h := ContextTracker.file_access_files_lookup tr p a now p
    rw [if_pos rfl] at h
    exact ⟨_, h, rfl, rfl, rfl, rfl, rfl⟩
  · rw [ContextTracker.file_access_changed, mem_insertOnce]
    exact Or.inr rfl

/-- C6: `end_turn()` increments the turn counter by one and then flips
`in_context` to false (dirtying the path) for exactly those nodes with
`in_context = true` and `current_turn − turn_accessed > context_turns`;
with `context_turns = 3` a node accessed at turn 0 is still in context
after the third `end_turn` and out of context after the fourth. -/
theorem C6_end_turn_expiry (tr : ContextTracker) :
    tr.end_turn.current_turn = tr.current_turn + 1 ∧
    (∀ q : String, (tr.end_turn.files).lookup q =
      (tr.files.lookup q).map (fun n =>
        if n.in_context = true ∧
            tr.config.context_turns < tr.current_turn + 1 - n.turn_accessed
        then { n with in_context := false } else n)) ∧
    (∀ q : String, q ∈ tr.end_turn.changed_paths ↔
      q ∈ tr.changed_paths ∨ ∃ n : FileNode, (q, n) ∈ tr.files ∧
        n.in_context = true ∧
        tr.config.context_turns < tr.current_turn + 1 - n.turn_accessed) ∧
    ((((((ContextTracker.new .default).file_access "/c.rs" .read 0
       ).end_turn.end_turn.end_turn).files.lookup "/c.rs").map
       (fun n => n.in_context) = some true) ∧
     (((((ContextTracker.new .default).file_access "/c.rs" .read 0
       ).end_turn.end_turn.end_turn.end_turn).files.lookup "/c.rs").map
       (fun n => n.in_context) = some false)) := by
  refine ⟨rfl, ?_, ?_, ?_, ?_⟩
  · intro q
    exact FileTable.lookup_mapValues tr.files
      (fun n =>
        if n.in_context = true ∧
            tr.config.context_turns < tr.current_turn + 1 - n.turn_accessed
        then { n with in_context := false } else n) q
  · intro q
    show q ∈ List.foldl insertOnce tr.changed_paths _ ↔ _
    rw [mem_foldl_insertOnce]
    constructor
    · rintro (h | h)
      · exact Or.inl h
      · rcases List.mem_map.mp h with ⟨kv, hkv, rfl⟩
        rcases List.mem_filter.mp hkv with ⟨hmem, hcond⟩
        exact Or.inr ⟨kv.2, hmem, of_decide_eq_true hcond⟩
    · rintro (h | ⟨n, hmem, hcond⟩)
      · exact Or.inl h
      · refine Or.inr (List.mem_map.mpr ⟨(q, n), ?_, rfl⟩)
        exact List.mem_filter.mpr ⟨hmem, decide_eq_true hcond⟩
  · norm_num [ContextTracker.new, ContextTracker.file_access,
      ContextTracker.end_turn, FileTable.lookup, FileTable.insertNode,
      insertOnce, TrackerConfig.default, List.find?]
  · norm_num [ContextTracker.new, ContextTracker.file_access,
      ContextTracker.end_turn, FileTable.lookup, FileTable.insertNode,
      insertOnce, TrackerConfig.default, List.find?]

/-- C5: `usage_update(used, size)` evicts every in-context node to
out-of-context (and dirties it) if and only if a previous used value
existed and `(previous − used) / previous ≥ compaction_threshold`; in
every case it stores the new used and size values and enqueues exactly
one `UsageMessage`. With the default threshold 0.5,
`usage_update(180000, 200000)` followed by `usage_update(45000,
200000)` flips the previously in-context node out of context. -/
theorem C5_usage_update_compaction (tr : ContextTracker)
    (used size : ℕ) :
    (∀ q : String, ((tr.usage_update used size).files).lookup q =
      (tr.files.lookup q).map (fun n =>
        if (0 < tr.last_used_tokens ∧
            tr.config.compaction_threshold ≤
              ((tr.last_used_tokens : ℚ) - (used : ℚ)) /
                (tr.last_used_tokens : ℚ)) ∧ n.in_context = true
        then { n with in_context := false } else n)) ∧
    (∀ q : String, q ∈ (tr.usage_update used size).changed_paths ↔
      q ∈ tr.changed_paths ∨
      ((0 < tr.last_used_tokens ∧
        tr.config.compaction_threshold ≤
          ((tr.last_used_tokens : ℚ) - (used : ℚ)) /
            (tr.last_used_tokens : ℚ)) ∧
       ∃ n : FileNode, (q, n) ∈ tr.files ∧ n.in_context = true)) ∧
    (tr.usage_update used size).last_used_tokens = used ∧
    (tr.usage_update used size).context_size = size ∧
    (tr.usage_update used size).pending_usage =
      tr.pending_usage ++
        [UsageMessage.new tr.agent_id tr.session_id used size none] ∧
    (((((ContextTracker.new .default).file_access "/d.rs" .read 0
      ).usage_update 180000 200000).usage_update 45000 200000
      ).files.lookup "/d.rs").map (fun n => n.in_context) =
      some false := by
  have hiff : (0 < tr.last_used_tokens ∧
      tr.config.compaction_threshold ≤
        1 - (used : ℚ) / (tr.last_used_tokens : ℚ)) ↔
      (0 < tr.last_used_tokens ∧
      tr.config.compaction_threshold ≤
        ((tr.last_used_tokens : ℚ) - (used : ℚ)) /
          (tr.last_used_tokens : ℚ)) := by
    have key : 0 < tr.last_used_tokens →
        (1 - (used : ℚ) / (tr.last_used_tokens : ℚ)) =
          ((tr.last_used_tokens : ℚ) - (used : ℚ)) /
            (tr.last_used_tokens : ℚ) := by
      intro hpos
      have hne : (tr.last_used_tokens : ℚ) ≠ 0 := by
        exact_mod_cast Nat.pos_iff_ne_zero.mp hpos
      rw [sub_div, div_self hne]
    constructor <;> rintro ⟨hpos, hle⟩ <;> refine ⟨hpos, ?_⟩
    · rw [← key hpos]; exact hle
    · rw [key hpos]; exact hle
  refine ⟨?_, ?_, ?_, ?_, ?_, ?_⟩
  · intro q
    simp only [ContextTracker.usage_update]
    by_cases hc : (0 < tr.last_used_tokens ∧
        tr.config.compaction_threshold ≤
          1 - (used : ℚ) / (tr.last_used_tokens : ℚ))
    · rw [if_pos hc]
      have hc' := hiff.mp hc
      calc FileTable.lookup
            (ContextTracker.handle_compaction
              { tr with last_used_tokens := used
                        context_size := size }).files q
          = (tr.files.lookup q).map (fun n =>
              if n.in_context = true then { n with in_context := false }
              else n) :=
            FileTable.lookup_mapValues tr.files
              (fun n => if n.in_context = true then
                  { n with in_context := false } else n) q
        _ = _ := by
            rcases FileTable.lookup tr.files q with _ | n
            · rfl
            · by_cases hn : n.in_context = true <;> simp [hn, hc']
    · rw [if_neg hc]
      have hc' : ¬ (0 < tr.last_used_tokens ∧
          tr.config.compaction_threshold ≤
            ((tr.last_used_tokens : ℚ) - (used : ℚ)) /
              (tr.last_used_tokens : ℚ)) := fun h => hc (hiff.mpr h)
      show FileTable.lookup tr.files q = _
      rcases FileTable.lookup tr.files q with _ | n
      · rfl
      · simp [hc']
  · intro q
    simp only [ContextTracker.usage_update]
    by_cases hc : (0 < tr.last_used_tokens ∧
        tr.config.compaction_threshold ≤
          1 - (used : ℚ) / (tr.last_used_tokens : ℚ))
    · rw [if_pos hc]
      have hc' := hiff.mp hc
      show q ∈ List.foldl insertOnce tr.changed_paths _ ↔ _
      rw [mem_foldl_insertOnce]
      constructor
      · rintro (h | h)
        · exact Or.inl h
        · rcases List.mem_map.mp h with ⟨kv, hkv, rfl⟩
          rcases List.mem_filter.mp hkv with ⟨hmem, hcond⟩
          exact Or.inr ⟨hc', kv.2, hmem, hcond⟩
      · rintro (h | ⟨_, n, hmem, hcond⟩)
        · exact Or.inl h
        · refine Or.inr (List.mem_map.mpr ⟨(q, n), ?_, rfl⟩)
          exact List.mem_filter.mpr ⟨hmem, hcond⟩
    · rw [if_neg hc]
      have hc' : ¬ (0 < tr.last_used_tokens ∧
          tr.config.compaction_threshold ≤
            ((tr.last_used_tokens : ℚ) - (used : ℚ)) /
              (tr.last_used_tokens : ℚ)) := fun h => hc (hiff.mpr h)
      show q ∈ tr.changed_paths ↔ _
      simp [hc']
  · unfold ContextTracker.usage_update
    by_cases hc : (0 < tr.last_used_tokens ∧
        tr.config.compaction_threshold ≤
          1 - (used : ℚ) / (tr.last_used_tokens : ℚ)) <;>
      simp [hc, ContextTracker.handle_compaction]
  · unfold ContextTracker.usage_update
    by_cases hc : (0 < tr.last_used_tokens ∧
        tr.config.compaction_threshold ≤
          1 - (used : ℚ) / (tr.last_used_tokens : ℚ)) <;>
      simp [hc, ContextTracker.handle_compaction]
  · unfold ContextTracker.usage_update
    by_cases hc : (0 < tr.last_used_tokens ∧
        tr.config.compaction_threshold ≤
          1 - (used : ℚ) / (tr.last_used_tokens : ℚ)) <;>
      simp [hc, ContextTracker.handle_compaction]
  · norm_num [ContextTracker.new, ContextTracker.file_access,
      ContextTracker.usage_update, ContextTracker.handle_compaction,
      FileTable.lookup, FileTable.insertNode, insertOnce,
      TrackerConfig.default, List.find?, UsageMessage.new]

/-- C3: for every `ZoneConfig` and every path, `is_allowed(path)`
returns true if and only if the path matches at least one allow
pattern and no deny pattern (each glob comparison strips a leading `/`
from both pattern and path); in particular a deny match overrides any
allow match, and when the allow list is empty every path is denied. -/
theorem C3_is_allowed_iff (z : ZoneConfig) (path : String) :
    (z.is_allowed path = true ↔
      ((∃ pat ∈ z.allowed,
          glob_match (stripSlash pat) (stripSlash path) = true) ∧
       (∀ pat ∈ z.denied,
          glob_match (stripSlash pat) (stripSlash path) = false))) ∧
    (∀ (d : List String) (p : String),
      ZoneConfig.is_allowed { allowed := [], denied := d } p = false) := by
  constructor
  · simp only [ZoneConfig.is_allowed]
    by_cases hd : z.denied.any (fun pattern =>
        glob_match (stripSlash pattern) (stripSlash path)) = true
    · rw [if_pos hd]
      constructor
      · intro h; exact absurd h (by simp)
      · rintro ⟨-, hall⟩
        obtain ⟨pat, hmem, hg⟩ := List.any_eq_true.mp hd
        simp [hall pat hmem] at hg
    · rw [if_neg hd]
      have hall : ∀ pat ∈ z.denied,
          glob_match (stripSlash pat) (stripSlash path) = false := by
        intro pat hmem
        by_contra hne
        exact hd (List.any_eq_true.mpr
          ⟨pat, hmem, by simpa using hne⟩)
      simp only [List.any_eq_true]
      exact ⟨fun h => ⟨h, hall⟩, fun h => h.1⟩
  · intro d p
    simp [ZoneConfig.is_allowed]

theorem mergedNode_heat (e n : FileNode) :
    (mergedNode e n).heat = max e.heat n.heat := by
  unfold mergedNode; split <;> rfl

theorem mergedNode_in_context (e n : FileNode) :
    (mergedNode e n).in_context = (e.in_context || n.in_context) := by
  unfold mergedNode; split <;> rfl

theorem mergedNode_turn (e n : FileNode) :
    (mergedNode e n).turn_accessed =
      max e.turn_accessed n.turn_accessed := by
  unfold mergedNode; split <;> rfl

theorem merge_node_lookup (t : FileTable) (n e : FileNode)
    (h : t.lookup n.path = some e) (q : String) :
    (merge_node t n).lookup q =
      if n.path = q then some (mergedNode e n) else t.lookup q := by
  unfold merge_node
  rw [h]
  exact FileTable.lookup_insertNode t n.path (mergedNode e n) q

theorem merge_fold_lookup (p : String) (ns : List FileNode) :
    ∀ (t : FileTable) (e : FileNode), (∀ n ∈ ns, n.path = p) →
    t.lookup p = some e →
    ∃ r : FileNode, (ns.foldl merge_node t).lookup p = some r ∧
      r.heat = ns.foldl (fun acc n => max acc n.heat) e.heat ∧
      r.in_context =
        ns.foldl (fun acc n => acc || n.in_context) e.in_context ∧
      r.turn_accessed =
        ns.foldl (fun acc n => max acc n.turn_accessed)
          e.turn_accessed := by
  induction ns with
  | nil => exact fun t e _ he => ⟨e, he, rfl, rfl, rfl⟩
  | cons n ns ih =>
    intro t e hp he
    have hnp : n.path = p := hp n (List.mem_cons_self n ns)
    have he' : t.lookup n.path = some e := by rw [hnp]; exact he
    have hlp : (merge_node t n).lookup p = some (mergedNode e n) := by
      have hl := merge_node_lookup t n e he' p
      rw [if_pos hnp] at hl
      exact hl
    obtain ⟨r, hr, h1, h2, h3⟩ := ih (merge_node t n) (mergedNode e n)
      (fun m hm => hp m (List.mem_cons_of_mem n hm)) hlp
    refine ⟨r, hr, ?_, ?_, ?_⟩
    · simpa [mergedNode_heat] using h1
    · simpa [mergedNode_in_context] using h2
    · simpa [mergedNode_turn] using h3

/-- C7: merging provider file tables aggregates per path with maximum
heat, OR of `in_context`, maximum `turn_accessed`, and takes
`last_action`/`timestamp_ms` from the entry with the larger timestamp,
preferring on timestamp ties the action with higher priority under
`write` > `search` > any other. -/
theorem C7_merge_node_semantics :
    (∀ (t : FileTable) (n e : FileNode), t.lookup n.path = some e →
      (merge_node t n).lookup n.path = some (mergedNode e n) ∧
      (mergedNode e n).heat = max e.heat n.heat ∧
      (mergedNode e n).in_context = (e.in_context || n.in_context) ∧
      (mergedNode e n).turn_accessed =
        max e.turn_accessed n.turn_accessed ∧
      ((e.timestamp_ms < n.timestamp_ms ∨
        (n.timestamp_ms = e.timestamp_ms ∧
         action_priority e.last_action < action_priority n.last_action)) →
        (mergedNode e n).last_action = n.last_action ∧
        (mergedNode e n).timestamp_ms = n.timestamp_ms) ∧
      (¬ (e.timestamp_ms < n.timestamp_ms ∨
        (n.timestamp_ms = e.timestamp_ms ∧
         action_priority e.last_action < action_priority n.last_action)) →
        (mergedNode e n).last_action = e.last_action ∧
        (mergedNode e n).timestamp_ms = e.timestamp_ms)) ∧
    (∀ (p : String) (ns : List FileNode) (t : FileTable) (e : FileNode),
      (∀ n ∈ ns, n.path = p) → t.lookup p = some e →
      ∃ r : FileNode, (ns.foldl merge_node t).lookup p = some r ∧
        r.heat = ns.foldl (fun acc n => max acc n.heat) e.heat ∧
        r.in_context =
          ns.foldl (fun acc n => acc || n.in_context) e.in_context ∧
        r.turn_accessed =
          ns.foldl (fun acc n => max acc n.turn_accessed)
            e.turn_accessed) ∧
    (action_priority .write = 3 ∧ action_priority .search = 2 ∧
      ∀ a : Action, a ≠ .write → a ≠ .search → action_priority a = 1) := by
  refine ⟨?_, ?_, rfl, rfl, ?_⟩
  · intro t n e h
    refine ⟨?_, mergedNode_heat e n, mergedNode_in_context e n,
      mergedNode_turn e n, ?_, ?_⟩
    · have hl := merge_node_lookup t n e h n.path
      rw [if_pos rfl] at hl
      exact hl
    · intro hcond
      unfold mergedNode
      rw [if_pos hcond]
      exact ⟨rfl, rfl⟩
    · intro hcond
      unfold mergedNode
      rw [if_neg hcond]
      exact ⟨rfl, rfl⟩
  · exact fun p ns t e hp he => merge_fold_lookup p ns t e hp he
  · intro a ha hs
    cases a <;> first | rfl | exact absurd rfl ha | exact absurd rfl hs

/-- Witness for C7: a two-provider merge on path `/m.rs` with a
timestamp tie resolved by action priority (`write` beats `read`). -/
theorem C7_merge_node_witness :
    (merge_node [("/m.rs", ⟨"/m.rs", 1, false, .read, 2, 10⟩)]
        ⟨"/m.rs", 0, true, .write, 5, 10⟩).lookup "/m.rs" =
      some (mergedNode ⟨"/m.rs", 1, false, .read, 2, 10⟩
        ⟨"/m.rs", 0, true, .write, 5, 10⟩) ∧
    (mergedNode ⟨"/m.rs", 1, false, .read, 2, 10⟩
        ⟨"/m.rs", 0, true, .write, 5, 10⟩).last_action = .write := by
  have h := C7_merge_node_semantics.1
    [("/m.rs", ⟨"/m.rs", 1, false, .read, 2, 10⟩)]
    ⟨"/m.rs", 0, true, .write, 5, 10⟩
    ⟨"/m.rs", 1, false, .read, 2, 10⟩ rfl
  exact ⟨h.1, (h.2.2.2.2.1 (Or.inr ⟨rfl, by decide⟩)).1⟩

theorem FileTable.lookup_mem (m : FileTable) (q : String) (n : FileNode)
    (h : FileTable.lookup m q = some n) : (q, n) ∈ m := by
  unfold FileTable.lookup at h
  rcases hfind : m.find? (fun kv => kv.1 = q) with _ | kv
  · rw [hfind] at h; cases h
  · rw [hfind] at h
    have hkv : kv.2 = n := by simpa using h
    have hmem := List.mem_of_find?_eq_some hfind
    have hpred := List.find?_some hfind
    have hkey : kv.1 = q := by simpa using hpred
    have : kv = (q, n) := by
      rcases kv with ⟨k, v⟩
      simp only at hkv hkey
      rw [hkv, hkey]
    rw [← this]; exact hmem

/-- The violating branch of `check_zone_violation` (`proxy.rs`): an
`fs/read_text_file` or `fs/write_text_file` request whose path the
zone rejects is classified with the matching action string. -/
theorem check_zone_violation_some (v : Json) (zone : ZoneConfig)
    (method p : String)
    (hm : (v.get "method").bind Json.asStr = some method)
    (hmethod : method = "fs/read_text_file" ∨
      method = "fs/write_text_file")
    (hp : ((v.get "params").bind (fun x => x.get "path")).bind
      Json.asStr = some p)
    (hblocked : zone.is_allowed p = false) :
    check_zone_violation v zone =
      some { path := p
             action := if method = "fs/read_text_file" then "read"
                       else "write" } := by
  unfold check_zone_violation
  rw [hm]
  rcases hmethod with rfl | rfl
  · simp [hp, hblocked]
  · simp [hp, hblocked]

/-- C4: a downstream `fs/read_text_file` or `fs/write_text_file`
request whose `params.path` the attached zone rejects is (a) recorded
in the tracker with action `blocked`, (b) answered by a synthetic
JSON-RPC error (code −32001, message naming the path, original id) in
place of the original line, (c) broadcast as a `BlockedAccess` with
the matching action, and (d) processed without invoking the downstream
extractor; every line the zone check passes is extracted and forwarded
unchanged. -/
theorem C4_zone_block (ext : Json → ContextTracker → ContextTracker)
    (zone : ZoneConfig) (v : Json) (tr : ContextTracker) (now : ℕ)
    (method p : String) (id : Json)
    (hm : (v.get "method").bind Json.asStr = some method)
    (hmethod : method = "fs/read_text_file" ∨
      method = "fs/write_text_file")
    (hp : ((v.get "params").bind (fun x => x.get "path")).bind
      Json.asStr = some p)
    (hid : v.get "id" = some id)
    (hblocked : zone.is_allowed p = false) :
    downstream_step ext (some zone) v tr now =
      { editorOut := [zoneErrorResponse id p]
        blockedOut := [BlockedAccess.new tr.agent_id tr.session_id p
          (if method = "fs/read_text_file" then "read" else "write") now]
        tracker := tr.file_access p .blocked now } ∧
    (∀ ext' : Json → ContextTracker → ContextTracker,
      downstream_step ext' (some zone) v tr now =
        downstream_step ext (some zone) v tr now) ∧
    (∀ w : Json, check_zone_violation w zone = none →
      downstream_step ext (some zone) w tr now =
        { editorOut := [w], blockedOut := [], tracker := ext w tr }) := by
  have hcheck := check_zone_violation_some v zone method p hm hmethod hp
    hblocked
  have hstep : ∀ e : Json → ContextTracker → ContextTracker,
      downstream_step e (some zone) v tr now =
        { editorOut := [zoneErrorResponse id p]
          blockedOut := [BlockedAccess.new tr.agent_id tr.session_id p
            (if method = "fs/read_text_file" then "read" else "write")
            now]
          tracker := tr.file_access p .blocked now } := by
    intro e
    simp only [downstream_step, hcheck, hid]
  refine ⟨hstep ext, fun e => (hstep e).trans (hstep ext).symm, ?_⟩
  intro w hnone
  simp only [downstream_step, hnone]

/-- Witness for C4: with allow list `["src/ui/**"]`, a blocked
`fs/write_text_file` for `/core/auth.rs` yields exactly the −32001
error line, one `blocked` broadcast with action `write`, and a
`blocked` file access — independent of the extractor. -/
theorem C4_zone_block_witness :
    downstream_step (fun _ t => t)
        (some (ZoneConfig.new ["src/ui/**"]))
        (Json.obj [("jsonrpc", .str "2.0"), ("id", .num 3),
          ("method", .str "fs/write_text_file"),
          ("params", .obj [("path", .str "/core/auth.rs"),
            ("content", .str "hello")])])
        (ContextTracker.new .default) 7 =
      { editorOut := [zoneErrorResponse (.num 3) "/core/auth.rs"]
        blockedOut := [BlockedAccess.new "" "" "/core/auth.rs" "write" 7]
        tracker := (ContextTracker.new .default).file_access
          "/core/auth.rs" .blocked 7 } := by
  have h := C4_zone_block (fun _ t => t)
    (ZoneConfig.new ["src/ui/**"])
    (Json.obj [("jsonrpc", .str "2.0"), ("id", .num 3),
      ("method", .str "fs/write_text_file"),
      ("params", .obj [("path", .str "/core/auth.rs"),
        ("content", .str "hello")])])
    (ContextTracker.new .default) 7 "fs/write_text_file"
    "/core/auth.rs" (.num 3) rfl (Or.inr rfl) rfl rfl (by decide)
  exact h.1.trans rfl

/-- C10: when the proxy blocks an out-of-zone `fs/read_text_file` or
`fs/write_text_file` request, the path is recorded through the
ordinary `file_access` path, so immediately afterwards the tracker
holds a node for it with heat 1.0, `in_context = true` and
`last_action = blocked`; that node is in the snapshot, and in general
a node stays in every snapshot as long as its heat is positive or it
is in context. -/
theorem C10_blocked_node_tracked
    (ext : Json → ContextTracker → ContextTracker)
    (zone : ZoneConfig) (v : Json) (tr : ContextTracker) (now : ℕ)
    (method p : String)
    (hm : (v.get "method").bind Json.asStr = some method)
    (hmethod : method = "fs/read_text_file" ∨
      method = "fs/write_text_file")
    (hp : ((v.get "params").bind (fun x => x.get "path")).bind
      Json.asStr = some p)
    (hblocked : zone.is_allowed p = false) :
    (∃ n : FileNode,
      ((downstream_step ext (some zone) v tr now).tracker.files).lookup
        p = some n ∧
      n.heat = 1 ∧ n.in_context = true ∧ n.last_action = .blocked ∧
      n.turn_accessed = tr.current_turn ∧ n.timestamp_ms = now) ∧
    (∃ n : FileNode,
      (p, n) ∈ (downstream_step ext (some zone) v tr
        now).tracker.snapshot.nodes ∧
      n.heat = 1 ∧ n.in_context = true ∧ n.last_action = .blocked) ∧
    (∀ (t : ContextTracker) (q : String) (m : FileNode),
      (q, m) ∈ t.files → (0 < m.heat ∨ m.in_context = true) →
      (q, m) ∈ t.snapshot.nodes) := by
  have hcheck := check_zone_violation_some v zone method p hm hmethod hp
    hblocked
  have htr : (downstream_step ext (some zone) v tr now).tracker =
      tr.file_access p .blocked now := by
    simp only [downstream_step, hcheck]
  have hlook := ContextTracker.file_access_files_lookup tr p .blocked
    now p
  rw [if_pos rfl] at hlook
  refine ⟨⟨_, by rw [htr]; exact hlook, rfl, rfl, rfl, rfl, rfl⟩,
    ?_, ?_⟩
  · refine ⟨{ path := (match tr.files.lookup p with
                       | some n => n.path
                       | none => p)
              heat := 1, in_context := true, last_action := .blocked
              turn_accessed := tr.current_turn, timestamp_ms := now },
      ?_, rfl, rfl, rfl⟩
    rw [htr]
    show (p, _) ∈ List.filter _ _
    refine List.mem_filter.mpr ⟨?_, by norm_num⟩
    exact FileTable.lookup_mem _ p _ hlook
  · intro t q m hmem hlive
    show (q, m) ∈ List.filter _ _
    refine List.mem_filter.mpr ⟨hmem, ?_⟩
    rcases hlive with h | h <;> simp [h]

/-- Witness for C10: the blocked write of `/core/auth.rs` from the C4
scenario leaves a hot, in-context, `blocked` node that the snapshot
reports. -/
theorem C10_blocked_node_witness :
    ∃ n : FileNode,
      ((downstream_step (fun _ t => t)
          (some (ZoneConfig.new ["src/ui/**"]))
          (Json.obj [("jsonrpc", .str "2.0"), ("id", .num 3),
            ("method", .str "fs/write_text_file"),
            ("params", .obj [("path", .str "/core/auth.rs"),
              ("content", .str "hello")])])
          (ContextTracker.new .default) 7).tracker.files).lookup
        "/core/auth.rs" = some n ∧
      n.heat = 1 ∧ n.in_context = true ∧ n.last_action = .blocked ∧
      n.turn_accessed = 0 ∧ n.timestamp_ms = 7 :=
  (C10_blocked_node_tracked (fun _ t => t)
    (ZoneConfig.new ["src/ui/**"])
    (Json.obj [("jsonrpc", .str "2.0"), ("id", .num 3),
      ("method", .str "fs/write_text_file"),
      ("params", .obj [("path", .str "/core/auth.rs"),
        ("content", .str "hello")])])
    (ContextTracker.new .default) 7 "fs/write_text_file"
    "/core/auth.rs" rfl (Or.inr rfl) rfl (by decide)).1

theorem scanStep_cases (now : ℕ) (t0 : ContextTracker)
    (raw : List Char) :
    scanStep now t0 raw =
      match scanLine raw with
      | some p => t0.file_access p .search now
      | none => t0 := by
  unfold scanStep scanLine
  by_cases h : (charTrim raw).isEmpty = true
  · simp [h]
  · simp [h]

theorem scanFold_lookup (now : ℕ) (lines : List (List Char)) :
    ∀ t0 : ContextTracker,
    (∀ p, p ∈ scanRecorded lines →
      ∃ n : FileNode,
        ((lines.foldl (scanStep now) t0).files).lookup p = some n ∧
        n.heat = 1 ∧ n.in_context = true ∧ n.last_action = .search ∧
        n.timestamp_ms = now) ∧
    (∀ p, p ∉ scanRecorded lines →
      ((lines.foldl (scanStep now) t0).files).lookup p =
        t0.files.lookup p) ∧
    (lines.foldl (scanStep now) t0).pending_terminal_output_ids =
      t0.pending_terminal_output_ids := by
  induction lines with
  | nil =>
    intro t0
    refine ⟨?_, fun p _ => rfl, rfl⟩
    intro p hp
    simp [scanRecorded] at hp
  | cons raw rest ih =>
    intro t0
    rw [List.foldl_cons]
    have hrec : scanRecorded (raw :: rest) =
        match scanLine raw with
        | some q => q :: scanRecorded rest
        | none => scanRecorded rest := by
      unfold scanRecorded
      rcases h : scanLine raw with _ | q <;>
        simp [List.filterMap_cons, h]
    rcases hline : scanLine raw with _ | q
    · rw [hline] at hrec
      have hstep : scanStep now t0 raw = t0 := by
        rw [scanStep_cases, hline]
      rw [hstep, hrec]
      exact ih t0
    · rw [hline] at hrec
      have hstep : scanStep now t0 raw =
          t0.file_access q .search now := by
        rw [scanStep_cases, hline]
      rw [hstep, hrec]
      set t1 := t0.file_access q .search now with ht1
      obtain ⟨ih1, ih2, ih3⟩ := ih t1
      refine ⟨?_, ?_, ?_⟩
      · intro p hp
        rcases List.mem_cons.mp hp with rfl | hp'
        · by_cases hrest : p ∈ scanRecorded rest
          · exact ih1 p hrest
          · have hl := ih2 p hrest
            rw [hl, ht1]
            have := ContextTracker.file_access_files_lookup t0 p
              .search now p
            rw [if_pos rfl] at this
            exact ⟨_, this, rfl, rfl, rfl, rfl⟩
        · exact ih1 p hp'
      · intro p hp
        have hq : q ≠ p := fun h => hp (h ▸ List.mem_cons_self q _)
        have hrest : p ∉ scanRecorded rest :=
          fun h => hp (List.mem_cons_of_mem q h)
        rw [ih2 p hrest, ht1,
          ContextTracker.file_access_files_lookup, if_neg hq]
      · exact ih3

theorem terminal_paths_spec_eq (out : String) :
    terminal_paths_spec out =
      scanRecorded (splitChar '\n' out.toList) := by
  unfold terminal_paths_spec scanRecorded
  have hfn : ∀ raw : List Char,
      (match charTrim raw with
       | [] => none
       | c :: rest =>
         if c = '/' then
           let path := charTrim ((c :: rest).takeWhile (fun x => x ≠ ':'))
           if 1 < path.length then some (String.mk path) else none
         else none) = scanLine raw := by
    intro raw
    unfold scanLine
    rcases h : charTrim raw with _ | ⟨c, rest⟩
    · simp [h]
    · simp [h, extract_path_from_line, String.toList]
  simp only [hfn]

/-- C8 (amended): for every JSON-RPC response whose identifier is in
the pending terminal-output set, the upstream extractor records, with
action `search`, exactly those lines of the `result.output` string
that begin with `/` (taking the prefix before the first `:` when
present, provided the result is longer than a bare `/`) — with no
file-extension requirement — and removes the identifier from the
pending set. -/
theorem C8_terminal_scan_amended (v : Json) (tr : ContextTracker)
    (now : ℕ) (id : ℕ) (out : String)
    (hid : (v.get "id").bind Json.asU64 = some id)
    (hpend : id ∈ tr.pending_terminal_output_ids)
    (hout : ((v.get "result").bind (fun r => r.get "output")).bind
      Json.asStr = some out) :
    (∀ p, p ∈ terminal_paths_spec out →
      ∃ n : FileNode,
        ((extract_upstream_response v tr now).files).lookup p = some n ∧
        n.heat = 1 ∧ n.in_context = true ∧ n.last_action = .search ∧
        n.timestamp_ms = now) ∧
    (∀ p, p ∉ terminal_paths_spec out →
      ((extract_upstream_response v tr now).files).lookup p =
        tr.files.lookup p) ∧
    (extract_upstream_response v tr now).pending_terminal_output_ids =
      tr.pending_terminal_output_ids.filter (fun x => x ≠ id) := by
  have hresp : extract_upstream_response v tr now =
      extract_paths_from_terminal_output out
        { tr with pending_terminal_output_ids :=
            tr.pending_terminal_output_ids.filter (fun x => x ≠ id) }
        now := by
    unfold extract_upstream_response
    rw [hid]
    simp only [hpend, if_true, hout]
  obtain ⟨h1, h2, h3⟩ := scanFold_lookup now (splitChar '\n' out.toList)
    { tr with pending_terminal_output_ids :=
        tr.pending_terminal_output_ids.filter (fun x => x ≠ id) }
  rw [terminal_paths_spec_eq]
  refine ⟨?_, ?_, ?_⟩
  · intro p hp
    rw [hresp]
    exact h1 p hp
  · intro p hp
    rw [hresp]
    exact h2 p hp
  · rw [hresp]
    exact h3

/-- Witness for C8 (amended): a pending response whose output holds a
grep-style line, a plain line and an extension-less path records
`/a/b.rs` and `/srv/noext` and drops the pending id. -/
theorem C8_terminal_scan_witness :
    ∃ n : FileNode,
      ((extract_upstream_response
          (Json.obj [("id", .num 7),
            ("result", .obj
              [("output", .str "/a/b.rs:10: x\nhello\n/srv/noext")])])
          ((ContextTracker.new .default).add_pending_terminal_output 7)
          9).files).lookup "/a/b.rs" = some n ∧
      n.heat = 1 ∧ n.in_context = true ∧ n.last_action = .search ∧
      n.timestamp_ms = 9 :=
  (C8_terminal_scan_amended
    (Json.obj [("id", .num 7),
      ("result", .obj
        [("output", .str "/a/b.rs:10: x\nhello\n/srv/noext")])])
    ((ContextTracker.new .default).add_pending_terminal_output 7)
    9 7 "/a/b.rs:10: x\nhello\n/srv/noext" rfl (by decide) rfl).1
    "/a/b.rs" (by decide)

/-- Counterexample for C8 as stated: the terminal-output scan applies
no file-extension filter — the extension-less path `/srv/noext` is
recorded with action `search` even though it contains no `.` at
all. -/
theorem C8_terminal_scan_counterexample :
    (∃ n : FileNode,
      ((extract_upstream_response
          (Json.obj [("id", .num 7),
            ("result", .obj [("output", .str "/srv/noext")])])
          ((ContextTracker.new .default).add_pending_terminal_output 7)
          9).files).lookup "/srv/noext" = some n ∧
      n.last_action = .search) ∧
    ("/srv/noext".toList.contains '.') = false := by
  refine ⟨⟨{ path := "/srv/noext", heat := 1, in_context := true
             last_action := .search, turn_accessed := 0
             timestamp_ms := 9 }, ?_, rfl⟩, by decide⟩
  rfl

theorem FileTable.lookup_filterProp (m : FileTable) (P : String → Prop)
    [DecidablePred P] (q : String) :
    FileTable.lookup (m.filter (fun kv => decide (P kv.1))) q =
      if P q then FileTable.lookup m q else none := by
  induction m with
  | nil => by_cases h : P q <;> simp [FileTable.lookup, h]
  | cons kv tl ih =>
    by_cases hk : P kv.1
    · by_cases hq : kv.1 = q
      · subst hq
        simp [List.filter_cons, hk, FileTable.lookup_cons, ih]
      · simp [List.filter_cons, hk, FileTable.lookup_cons, hq, ih]
    · by_cases hq : kv.1 = q
      · subst hq
        simp [List.filter_cons, hk, FileTable.lookup_cons, ih]
      · simp [List.filter_cons, hk, FileTable.lookup_cons, hq, ih]

theorem ContextTracker.tickDecayedFiles_lookup (tr : ContextTracker)
    (p : String) :
    (tr.tickDecayedFiles).lookup p =
      (tr.files.lookup p).map (decayNode tr.config.decay_rate) :=
  FileTable.lookup_mapValues tr.files (decayNode tr.config.decay_rate) p

theorem ContextTracker.mem_tickDirty (tr : ContextTracker) (p : String) :
    p ∈ tr.tickDirty ↔ p ∈ tr.changed_paths ∨
      ∃ n : FileNode, (p, n) ∈ tr.files ∧ n.in_context = false ∧
        1/100 < n.heat := by
  unfold ContextTracker.tickDirty
  rw [mem_foldl_insertOnce]
  constructor
  · rintro (h | h)
    · exact Or.inl h
    · rcases List.mem_map.mp h with ⟨kv, hkv, rfl⟩
      rcases List.mem_filter.mp hkv with ⟨hmem, hcond⟩
      exact Or.inr ⟨kv.2, hmem, of_decide_eq_true hcond⟩
  · rintro (h | ⟨n, hmem, hcond⟩)
    · exact Or.inl h
    · refine Or.inr (List.mem_map.mpr ⟨(p, n), ?_, rfl⟩)
      exact List.mem_filter.mpr ⟨hmem, decide_eq_true hcond⟩

theorem ContextTracker.tickDirty_lookup (tr : ContextTracker)
    (hkeys : ∀ p ∈ tr.changed_paths, ∃ n, tr.files.lookup p = some n)
    (p : String) (hp : p ∈ tr.tickDirty) :
    ∃ n, tr.files.lookup p = some n := by
  rcases (ContextTracker.mem_tickDirty tr p).mp hp with h | ⟨n, hmem, -⟩
  · exact hkeys p h
  · exact (FileTable.any_key_iff tr.files p).mp
      (List.any_eq_true.mpr ⟨(p, n), hmem, by simp⟩)

theorem ContextTracker.mem_tickRemoved (tr : ContextTracker)
    (p : String) :
    p ∈ tr.tickRemoved ↔ p ∈ tr.tickDirty ∧
      ∃ n : FileNode, (tr.tickDecayedFiles).lookup p = some n ∧
        ¬ (0 < n.heat ∨ n.in_context = true) := by
  unfold ContextTracker.tickRemoved
  rw [List.mem_filterMap]
  constructor
  · rintro ⟨q, hq, hg⟩
    rcases hl : (tr.tickDecayedFiles).lookup q with _ | n
    · simp [hl] at hg
    · simp only [hl] at hg
      by_cases hc : 0 < n.heat ∨ n.in_context = true
      · rw [if_pos hc] at hg
        exact Option.noConfusion hg
      · simp only [if_neg hc] at hg
        obtain rfl : q = p := Option.some.inj hg
        exact ⟨hq, n, hl, hc⟩
  · rintro ⟨hd, n, hl, hc⟩
    exact ⟨p, hd, by simp only [hl, if_neg hc]⟩

theorem ContextTracker.mem_tickUpdates (tr : ContextTracker)
    (u : NodeUpdate) :
    u ∈ tr.tickUpdates ↔
      ∃ (p : String) (n : FileNode), p ∈ tr.tickDirty ∧
        (tr.tickDecayedFiles).lookup p = some n ∧
        (0 < n.heat ∨ n.in_context = true) ∧ u = n.to_update := by
  unfold ContextTracker.tickUpdates
  rw [List.mem_filterMap]
  constructor
  · rintro ⟨q, hq, hg⟩
    rcases hl : (tr.tickDecayedFiles).lookup q with _ | n
    · simp [hl] at hg
    · simp only [hl] at hg
      by_cases hc : 0 < n.heat ∨ n.in_context = true
      · simp only [if_pos hc] at hg
        exact ⟨q, n, hq, hl, hc, (Option.some.inj hg).symm⟩
      · rw [if_neg hc] at hg
        exact Option.noConfusion hg
  · rintro ⟨q, n, hq, hl, hc, rfl⟩
    exact ⟨q, hq, by simp only [hl, if_pos hc]⟩

theorem ContextTracker.decayNode_heat_nonneg (rate : ℚ) (n : FileNode)
    (h : 0 ≤ n.heat) (hr : 0 ≤ rate) :
    0 ≤ (decayNode rate n).heat := by
  unfold decayNode
  split
  · dsimp only
    split
    · exact le_refl 0
    · exact mul_nonneg h hr
  · exact h

theorem ContextTracker.decayNode_heat_le_one (rate : ℚ) (n : FileNode)
    (h0 : 0 ≤ n.heat) (h1 : n.heat ≤ 1) (hr0 : 0 ≤ rate)
    (hr1 : rate ≤ 1) :
    (decayNode rate n).heat ≤ 1 := by
  unfold decayNode
  split
  · dsimp only
    split
    · exact zero_le_one
    · calc n.heat * rate ≤ n.heat * 1 :=
          mul_le_mul_of_nonneg_left hr1 h0
        _ = n.heat := mul_one n.heat
        _ ≤ 1 := h1
  · exact h1

theorem ContextTracker.tick_files_lookup (tr : ContextTracker)
    (p : String) :
    ((tr.tick).1.files).lookup p =
      if p ∈ tr.tickRemoved then none
      else (tr.tickDecayedFiles).lookup p := by
  unfold ContextTracker.tick
  by_cases h1 : (tr.tickDirty).isEmpty = true
  · have hdirty : tr.tickDirty = [] := by simpa using h1
    have hrem : tr.tickRemoved = [] := by
      unfold ContextTracker.tickRemoved
      rw [hdirty]
      rfl
    simp [h1, hrem]
  · simp only [h1, Bool.false_eq_true, if_false]
    split
    · exact (FileTable.lookup_filterProp tr.tickDecayedFiles
        (fun k => k ∉ tr.tickRemoved) p).trans
        (by by_cases hp : p ∈ tr.tickRemoved <;> simp [hp])
    · exact (FileTable.lookup_filterProp tr.tickDecayedFiles
        (fun k => k ∉ tr.tickRemoved) p).trans
        (by by_cases hp : p ∈ tr.tickRemoved <;> simp [hp])

theorem ContextTracker.tick_result (tr : ContextTracker)
    (hkeys : ∀ p ∈ tr.changed_paths, ∃ n, tr.files.lookup p = some n) :
    ((tr.tickUpdates = [] ∧ tr.tickRemoved = []) →
      (tr.tick).2 = none ∧ (tr.tick).1.seq = tr.seq) ∧
    (¬ (tr.tickUpdates = [] ∧ tr.tickRemoved = []) →
      (tr.tick).2 = some (Delta.new tr.agent_id tr.session_id
        (tr.seq + 1) tr.tickUpdates tr.tickRemoved) ∧
      (tr.tick).1.seq = tr.seq + 1) := by
  constructor
  · rintro ⟨hu, hr⟩
    by_cases h1 : (tr.tickDirty).isEmpty = true
    · unfold ContextTracker.tick
      simp [h1]
    · exfalso
      have hne : tr.tickDirty ≠ [] := by simpa using h1
      rcases hd : tr.tickDirty with _ | ⟨p, rest⟩
      · exact hne hd
      have hp : p ∈ tr.tickDirty := by rw [hd]; exact List.mem_cons_self p rest
      obtain ⟨n0, hn0⟩ := ContextTracker.tickDirty_lookup tr hkeys p hp
      have hl : (tr.tickDecayedFiles).lookup p =
          some (decayNode tr.config.decay_rate n0) := by
        rw [ContextTracker.tickDecayedFiles_lookup, hn0]
        rfl
      by_cases hc : 0 < (decayNode tr.config.decay_rate n0).heat ∨
          (decayNode tr.config.decay_rate n0).in_context = true
      · have : (decayNode tr.config.decay_rate n0).to_update ∈
            tr.tickUpdates :=
          (ContextTracker.mem_tickUpdates tr _).mpr
            ⟨p, _, hp, hl, hc, rfl⟩
        rw [hu] at this
        exact absurd this (List.not_mem_nil _)
      · have : p ∈ tr.tickRemoved :=
          (ContextTracker.mem_tickRemoved tr p).mpr ⟨hp, _, hl, hc⟩
        rw [hr] at this
        exact absurd this (List.not_mem_nil _)
  · intro hne2
    have h1 : ¬ (tr.tickDirty).isEmpty = true := by
      intro h
      apply hne2
      have hdirty : tr.tickDirty = [] := by simpa using h
      constructor
      · unfold ContextTracker.tickUpdates; rw [hdirty]; rfl
      · unfold ContextTracker.tickRemoved; rw [hdirty]; rfl
    have h2 : ¬ ((tr.tickUpdates).isEmpty = true ∧
        (tr.tickRemoved).isEmpty = true) := by
      rintro ⟨hu, hr⟩
      exact hne2 ⟨by simpa using hu, by simpa using hr⟩
    unfold ContextTracker.tick
    simp only [h1, Bool.false_eq_true, if_false]
    rw [if_neg h2]
    exact ⟨rfl, rfl⟩

/-- C1: `tick()` decays exactly the out-of-context nodes with heat
above 0.01 (multiplying by `decay_rate`, clamping results ≤ 0.01 to
0), puts every dirty node that decayed to 0 out of context into
`removed` and prunes it, puts every other dirty node into `updates`,
returns nothing without touching the sequence number when both lists
are empty, and otherwise increments the sequence number by exactly one
and returns a delta carrying it — so sequence numbers are strictly
monotonic across non-empty deltas and unchanged on empty ticks. The
hypotheses are invariants of every reachable tracker: dirty paths name
table entries, heats are non-negative, and the decay rate is
non-negative. -/
theorem C1_tick_semantics (tr : ContextTracker)
    (hkeys : ∀ p ∈ tr.changed_paths, ∃ n, tr.files.lookup p = some n)
    (hheat : ∀ p n, tr.files.lookup p = some n → 0 ≤ n.heat)
    (hrate : 0 ≤ tr.config.decay_rate) :
    (∀ p n, tr.files.lookup p = some n →
      (tr.tickDecayedFiles).lookup p =
        some (ContextTracker.decayNode tr.config.decay_rate n)) ∧
    (∀ n : FileNode,
      (n.in_context = false ∧ 1/100 < n.heat →
        (ContextTracker.decayNode tr.config.decay_rate n).heat =
          (if n.heat * tr.config.decay_rate ≤ 1/100 then 0
           else n.heat * tr.config.decay_rate)) ∧
      (¬ (n.in_context = false ∧ 1/100 < n.heat) →
        ContextTracker.decayNode tr.config.decay_rate n = n)) ∧
    (∀ p, p ∈ tr.tickRemoved ↔ p ∈ tr.tickDirty ∧
      ∃ n, tr.files.lookup p = some n ∧
        (ContextTracker.decayNode tr.config.decay_rate n).heat = 0 ∧
        (ContextTracker.decayNode tr.config.decay_rate n).in_context =
          false) ∧
    (∀ p n, p ∈ tr.tickDirty → tr.files.lookup p = some n →
      p ∉ tr.tickRemoved →
      (ContextTracker.decayNode tr.config.decay_rate n).to_update ∈
        tr.tickUpdates) ∧
    (∀ u ∈ tr.tickUpdates, ∃ p n, p ∈ tr.tickDirty ∧
      tr.files.lookup p = some n ∧
      u = (ContextTracker.decayNode tr.config.decay_rate n).to_update ∧
      (0 < (ContextTracker.decayNode tr.config.decay_rate n).heat ∨
        (ContextTracker.decayNode tr.config.decay_rate n).in_context =
          true)) ∧
    (∀ p, ((tr.tick).1.files).lookup p =
      if p ∈ tr.tickRemoved then none
      else (tr.tickDecayedFiles).lookup p) ∧
    ((tr.tickUpdates = [] ∧ tr.tickRemoved = []) →
      (tr.tick).2 = none ∧ (tr.tick).1.seq = tr.seq) ∧
    (¬ (tr.tickUpdates = [] ∧ tr.tickRemoved = []) →
      (tr.tick).2 = some (Delta.new tr.agent_id tr.session_id
        (tr.seq + 1) tr.tickUpdates tr.tickRemoved) ∧
      (tr.tick).1.seq = tr.seq + 1) := by
  have hdec : ∀ p n, tr.files.lookup p = some n →
      (tr.tickDecayedFiles).lookup p =
        some (ContextTracker.decayNode tr.config.decay_rate n) := by
    intro p n h
    rw [ContextTracker.tickDecayedFiles_lookup, h]
    rfl
  refine ⟨hdec, ?_, ?_, ?_, ?_,
    fun p => ContextTracker.tick_files_lookup tr p,
    (ContextTracker.tick_result tr hkeys).1,
    (ContextTracker.tick_result tr hkeys).2⟩
  · intro n
    constructor
    · intro hc
      unfold ContextTracker.decayNode
      rw [if_pos hc]
    · intro hc
      unfold ContextTracker.decayNode
      rw [if_neg hc]
  · intro p
    rw [ContextTracker.mem_tickRemoved]
    constructor
    · rintro ⟨hd, m, hm, hc⟩
      obtain ⟨n, hn⟩ := ContextTracker.tickDirty_lookup tr hkeys p hd
      have : m = ContextTracker.decayNode tr.config.decay_rate n := by
        have h2 := hdec p n hn
        rw [hm] at h2
        exact Option.some.inj h2
      subst this
      push_neg at hc
      obtain ⟨hc1, hc2⟩ := hc
      refine ⟨hd, n, hn, le_antisymm hc1
        (ContextTracker.decayNode_heat_nonneg _ _ (hheat p n hn) hrate),
        ?_⟩
      simpa using hc2
    · rintro ⟨hd, n, hn, hz, hctx⟩
      refine ⟨hd, ContextTracker.decayNode tr.config.decay_rate n,
        hdec p n hn, ?_⟩
      rw [hz, hctx]
      simp
  · intro p n hd hn hrem
    have hc : 0 < (ContextTracker.decayNode tr.config.decay_rate n).heat
        ∨ (ContextTracker.decayNode tr.config.decay_rate n).in_context =
          true := by
      by_contra hc
      apply hrem
      exact (ContextTracker.mem_tickRemoved tr p).mpr
        ⟨hd, _, hdec p n hn, hc⟩
    exact (ContextTracker.mem_tickUpdates tr _).mpr
      ⟨p, _, hd, hdec p n hn, hc, rfl⟩
  · intro u hu
    obtain ⟨p, m, hd, hm, hc, rfl⟩ :=
      (ContextTracker.mem_tickUpdates tr u).mp hu
    obtain ⟨n, hn⟩ := ContextTracker.tickDirty_lookup tr hkeys p hd
    have hmn : m = ContextTracker.decayNode tr.config.decay_rate n := by
      have h2 := hdec p n hn
      rw [hm] at h2
      exact Option.some.inj h2
    subst hmn
    exact ⟨p, n, hd, hn, rfl, hc⟩

/-- Witness for C1: after one access of `/a.rs` on a fresh tracker the
tick returns a delta with sequence number 1 and leaves the sequence
counter at 1. -/
theorem C1_tick_witness :
    (((ContextTracker.new .default).file_access "/a.rs" .read 0
      ).tick).2 =
      some (Delta.new "" "" 1
        ((ContextTracker.new .default).file_access "/a.rs" .read 0
          ).tickUpdates
        ((ContextTracker.new .default).file_access "/a.rs" .read 0
          ).tickRemoved) ∧
    (((ContextTracker.new .default).file_access "/a.rs" .read 0
      ).tick).1.seq = 1 := by
  have h := (C1_tick_semantics
    ((ContextTracker.new .default).file_access "/a.rs" .read 0)
    (by
      intro p hp
      have hp' : p = "/a.rs" := by
        simpa [ContextTracker.file_access_changed, insertOnce,
          ContextTracker.new] using hp
      subst hp'
      exact ⟨_, rfl⟩)
    (by
      intro p n h
      have hl := ContextTracker.file_access_files_lookup
        (ContextTracker.new .default) "/a.rs" .read 0 p
      rw [h] at hl
      by_cases hp : "/a.rs" = p
      · rw [if_pos hp] at hl
        have hn := Option.some.inj hl
        subst hn
        norm_num
      · rw [if_neg hp] at hl
        simp [ContextTracker.new, FileTable.lookup] at hl)
    (by
      show (0 : ℚ) ≤ 19/20
      norm_num)).2.2.2.2.2.2.2
  exact h (by
    rintro ⟨hu, -⟩
    have : (1 : ℚ) ≤ 1/100 := by
      have hmem : (FileNode.to_update
          { path := "/a.rs", heat := 1, in_context := true
            last_action := .read, turn_accessed := 0
            timestamp_ms := 0 }) ∈
          ((ContextTracker.new .default).file_access "/a.rs" .read 0
            ).tickUpdates := by
        apply (ContextTracker.mem_tickUpdates _ _).mpr
        refine ⟨"/a.rs", _, ?_, ?_, ?_, rfl⟩
        · rw [ContextTracker.mem_tickDirty]
          left
          simp [ContextTracker.file_access_changed, insertOnce,
            ContextTracker.new]
        · rw [ContextTracker.tickDecayedFiles_lookup]
          have hl := ContextTracker.file_access_files_lookup
            (ContextTracker.new .default) "/a.rs" .read 0 "/a.rs"
          rw [if_pos rfl] at hl
          rw [hl]
          rfl
        · right; rfl
      rw [hu] at hmem
      exact absurd hmem (List.not_mem_nil _)
    linarith)

theorem ContextTracker.usage_update_config (tr : ContextTracker)
    (used size : ℕ) :
    (tr.usage_update used size).config = tr.config := by
  simp only [ContextTracker.usage_update]
  split <;> rfl

theorem ContextTracker.tick_config (tr : ContextTracker) :
    (tr.tick).1.config = tr.config := by
  simp only [ContextTracker.tick]
  split
  · rfl
  · split <;> rfl

theorem Reachable_config (cfg : TrackerConfig) (tr : ContextTracker)
    (h : Reachable cfg tr) : tr.config = cfg := by
  induction h with
  | base => rfl
  | access tr' q a now hr ih => exact ih
  | turn tr' hr ih => exact ih
  | usage tr' used size hr ih =>
    rw [ContextTracker.usage_update_config]; exact ih
  | step_tick tr' hr ih =>
    rw [ContextTracker.tick_config]; exact ih

theorem ContextTracker.usage_update_files (tr : ContextTracker)
    (used size : ℕ) :
    (tr.usage_update used size).files =
      if 0 < tr.last_used_tokens ∧
          tr.config.compaction_threshold ≤
            1 - (used : ℚ) / (tr.last_used_tokens : ℚ)
      then ({ tr with last_used_tokens := used
                      context_size := size } :
        ContextTracker).handle_compaction.files
      else tr.files := by
  simp only [ContextTracker.usage_update]
  split <;> rfl

/-- C9: along every sequence of `file_access`, `end_turn`,
`usage_update` and `tick` calls from a fresh tracker (with a decay
rate in `[0, 1]`, as the default 0.95 is), every node's heat stays in
`[0, 1]`. -/
theorem C9_heat_in_unit_interval (cfg : TrackerConfig)
    (h0 : 0 ≤ cfg.decay_rate) (h1 : cfg.decay_rate ≤ 1)
    (tr : ContextTracker) (hreach : Reachable cfg tr) :
    ∀ p n, tr.files.lookup p = some n → 0 ≤ n.heat ∧ n.heat ≤ 1 := by
  induction hreach with
  | base =>
    intro p n h
    simp [ContextTracker.new, FileTable.lookup] at h
  | access tr' q a now hr ih =>
    intro p n h
    rw [ContextTracker.file_access_files_lookup] at h
    by_cases hq : q = p
    · rw [if_pos hq] at h
      have hn := Option.some.inj h
      rw [← hn]
      constructor <;> norm_num
    · rw [if_neg hq] at h
      exact ih p n h
  | turn tr' hr ih =>
    intro p n h
    have hm := FileTable.lookup_mapValues tr'.files
      (fun x => if x.in_context = true ∧
          tr'.config.context_turns <
            tr'.current_turn + 1 - x.turn_accessed
        then { x with in_context := false } else x) p
    have h2 := hm.symm.trans h
    rcases hl : tr'.files.lookup p with _ | m
    · rw [hl] at h2; cases h2
    · rw [hl] at h2
      have hn := Option.some.inj h2
      have hheat : n.heat = m.heat := by
        rw [← hn]
        dsimp only
        by_cases hc : m.in_context = true ∧
            tr'.config.context_turns <
              tr'.current_turn + 1 - m.turn_accessed
        · rw [if_pos hc]
        · rw [if_neg hc]
      rw [hheat]
      exact ih p m hl
  | usage tr' used size hr ih =>
    intro p n h
    rw [ContextTracker.usage_update_files] at h
    by_cases hc : 0 < tr'.last_used_tokens ∧
        tr'.config.compaction_threshold ≤
          1 - (used : ℚ) / (tr'.last_used_tokens : ℚ)
    · rw [if_pos hc] at h
      have hm := FileTable.lookup_mapValues tr'.files
        (fun x => if x.in_context = true then
            { x with in_context := false } else x) p
      have h2 := hm.symm.trans h
      rcases hl : tr'.files.lookup p with _ | m
      · rw [hl] at h2; cases h2
      · rw [hl] at h2
        have hn := Option.some.inj h2
        have hheat : n.heat = m.heat := by
          rw [← hn]
          dsimp only
          by_cases hcm : m.in_context = true
          · rw [if_pos hcm]
          · rw [if_neg hcm]
        rw [hheat]
        exact ih p m hl
    · rw [if_neg hc] at h
      exact ih p n h
  | step_tick tr' hr ih =>
    intro p n h
    rw [ContextTracker.tick_files_lookup] at h
    by_cases hp : p ∈ tr'.tickRemoved
    · rw [if_pos hp] at h; cases h
    · rw [if_neg hp] at h
      rw [ContextTracker.tickDecayedFiles_lookup] at h
      rcases hl : tr'.files.lookup p with _ | m
      · rw [hl] at h; cases h
      · rw [hl] at h
        have hn := Option.some.inj h
        obtain ⟨hm0, hm1⟩ := ih p m hl
        have hcfg := Reachable_config cfg tr' hr
        rw [← hn]
        constructor
        · exact ContextTracker.decayNode_heat_nonneg _ _ hm0
            (by rw [hcfg]; exact h0)
        · exact ContextTracker.decayNode_heat_le_one _ _ hm0 hm1
            (by rw [hcfg]; exact h0) (by rw [hcfg]; exact h1)

/-- Witness for C9: the default configuration satisfies the decay-rate
bounds, and the node created by a first `file_access` on a fresh
tracker has heat within `[0, 1]`. -/
theorem C9_heat_witness :
    (0 : ℚ) ≤ TrackerConfig.default.decay_rate ∧
    TrackerConfig.default.decay_rate ≤ 1 ∧
    ∃ n : FileNode,
      (((ContextTracker.new .default).file_access "/w.rs" .read 0
        ).files).lookup "/w.rs" = some n ∧
      0 ≤ n.heat ∧ n.heat ≤ 1 := by
  refine ⟨by norm_num [TrackerConfig.default],
    by norm_num [TrackerConfig.default], ?_⟩
  refine ⟨{ path := "/w.rs", heat := 1, in_context := true
            last_action := .read, turn_accessed := 0
            timestamp_ms := 0 }, rfl, ?_⟩
  exact C9_heat_in_unit_interval .default
    (by norm_num [TrackerConfig.default])
    (by norm_num [TrackerConfig.default]) _
    (Reachable.access _ "/w.rs" .read 0 Reachable.base) "/w.rs" _ rfl
